import Mathlib

/-!
Shallow embedding of the doctor-appointment booking application.

The data model follows the database schema (tables `doctors`,
`doctor_schedules`, `appointments`) and the front-end components
`BookAppointment` (slot generation and booking), `DoctorDashboard`
(doctor status transitions), `PatientAppointments` (patient cancel) and
`DoctorsList` (patient-facing doctor directory).

Modelling conventions:
* Identifiers (uuid columns) are `Nat`.
* A calendar date is a `Nat` day index; its weekday (`Date.getDay()` in
  the source) is the index mod 7.
* A time of day is a `Nat` counting minutes since midnight.  The
  application handles times at minute granularity throughout: slots are
  formatted `HH:mm`, bookings are stored as `selectedTime + ':00'`, and
  the booked-time comparison appends the same `':00'` suffix, so minute
  granularity is exact for the code paths modelled here.
* The current moment (`new Date()` in the source) is a `DateTime`
  (day index plus minutes); comparison of two instants is lexicographic.
* Tables are lists of rows; query filters become `List.filter`.
-/

namespace Booking

/-- The `status` column of `appointments`:
`CHECK (status IN ('pending', 'confirmed', 'cancelled', 'completed'))`. -/
inductive Status where
  | pending
  | confirmed
  | cancelled
  | completed
deriving DecidableEq

/-- An instant: calendar day index plus minutes since midnight. -/
structure DateTime where
  date : Nat
  time : Nat
deriving DecidableEq

/-- Strict comparison of instants, as JavaScript `Date` comparison
(`a < b`): lexicographic on (day, time-of-day). -/
def DateTime.before (a b : DateTime) : Bool :=
  a.date < b.date || (a.date == b.date && a.time < b.time)

/-- A row of `doctor_schedules`: weekly availability window for a doctor
(`day_of_week 0-6`, start/end time, availability flag). -/
structure ScheduleRow where
  id : Nat
  doctor_id : Nat
  day_of_week : Nat
  start_time : Nat
  end_time : Nat
  is_available : Bool
deriving DecidableEq

/-- A row of `appointments`. -/
structure AppointmentRow where
  id : Nat
  patient_id : Nat
  doctor_id : Nat
  appointment_date : Nat
  appointment_time : Nat
  status : Status
  notes : Option String
  patient_notes : Option String
  doctor_notes : Option String
  updated_at : DateTime
deriving DecidableEq

/-- A row of `doctors` (the fields the directory listing uses). -/
structure DoctorRow where
  id : Nat
  user_id : Nat
  specialization : String
  is_available : Bool
  is_verified : Bool
deriving DecidableEq

/-- A candidate slot produced by `generateTimeSlots`
(`interface TimeSlot { time: string; available: boolean }`). -/
structure TimeSlot where
  time : Nat
  available : Bool
deriving DecidableEq

/-- `DoctorsList.fetchDoctors`: the patient-facing directory query
`.from('doctors').eq('is_verified', true).eq('is_available', true)`. -/
def fetchDoctors (tbl : List DoctorRow) : List DoctorRow :=
  tbl.filter (fun d => d.is_verified && d.is_available)

/-- The slot-emission loop of `generateTimeSlots`:
`while (currentTime < endTime) { push(currentTime); currentTime += 30min }`. -/
def walkSlots (cur endTime : Nat) : List Nat :=
  if h : cur < endTime then cur :: walkSlots (cur + 30) endTime else []
termination_by endTime - cur
decreasing_by omega

/-- The schedule query of `generateTimeSlots`:
`.from('doctor_schedules').eq('doctor_id', ...).eq('day_of_week', ...)
.eq('is_available', true)`. -/
def schedulesFor (doctorId dayOfWeek : Nat) (tbl : List ScheduleRow) : List ScheduleRow :=
  tbl.filter (fun s => s.doctor_id == doctorId && s.day_of_week == dayOfWeek && s.is_available)

/-- The booked-times computation of `generateTimeSlots`:
`.from('appointments').eq('doctor_id', ...).eq('appointment_date', ...)
.in('status', ['pending', 'confirmed'])`, then `map(apt => apt.appointment_time)`. -/
def bookedTimes (doctorId dateIdx : Nat) (tbl : List AppointmentRow) : List Nat :=
  (tbl.filter (fun a => a.doctor_id == doctorId && a.appointment_date == dateIdx &&
    (a.status == Status.pending || a.status == Status.confirmed))).map
    (fun a => a.appointment_time)

/-- `BookAppointment.generateTimeSlots`: for each available schedule entry of
the doctor on the target date's weekday, walk from start to end time in
30-minute steps; a slot is unavailable when its time is among the booked times
or the target date is today and the slot's instant lies before `now`. -/
def generateTimeSlots (doctorId dateIdx : Nat) (now : DateTime)
    (schedTbl : List ScheduleRow) (apptTbl : List AppointmentRow) : List TimeSlot :=
  let dayOfWeek := dateIdx % 7
  let booked := bookedTimes doctorId dateIdx apptTbl
  (schedulesFor doctorId dayOfWeek schedTbl).flatMap (fun schedule =>
    (walkSlots schedule.start_time schedule.end_time).map (fun t =>
      let isBooked := booked.contains t
      let isPast := (dateIdx == now.date) && DateTime.before ⟨dateIdx, t⟩ now
      { time := t, available := !isBooked && !isPast }))

/-- Does row `a` collide with `row` on the `UNIQUE(doctor_id,
appointment_date, appointment_time)` key of `appointments`? -/
def tripleConflict (row a : AppointmentRow) : Bool :=
  a.doctor_id == row.doctor_id && a.appointment_date == row.appointment_date &&
    a.appointment_time == row.appointment_time

/-- Insert into `appointments`: the storage layer rejects the row (returns
`none`, surfaced as an error to the caller) when the uniqueness constraint
on (doctor_id, appointment_date, appointment_time) is violated. -/
def dbInsert (row : AppointmentRow) (tbl : List AppointmentRow) :
    Option (List AppointmentRow) :=
  if tbl.any (tripleConflict row) then none else some (tbl ++ [row])

/-- The row payload of `handleBookAppointment`'s insert:
`{ patient_id: user.id, doctor_id, appointment_date, appointment_time,
patient_notes: notes, status: 'pending' }`; `updated_at` is set by the
storage layer's default/trigger. -/
def newAppointment (userId doctorId dateIdx t : Nat) (notes : String)
    (newId : Nat) (now : DateTime) : AppointmentRow :=
  { id := newId, patient_id := userId, doctor_id := doctorId,
    appointment_date := dateIdx, appointment_time := t,
    status := Status.pending, notes := none, patient_notes := some notes,
    doctor_notes := none, updated_at := now }

/-- Outcome surfaced to the booking caller: navigation with a success
message, or the single generic failure alert. -/
inductive BookResult where
  | success
  | failure
deriving DecidableEq

/-- `BookAppointment.handleBookAppointment`: guard
`if (!doctor || !selectedTime || !user) return`, then one insert attempt with
status `pending`; on storage failure the state is unchanged and one generic
failure message is shown (no retry). -/
def handleBookAppointment (user doctorId selectedTime : Option Nat)
    (dateIdx : Nat) (notes : String) (newId : Nat) (now : DateTime)
    (tbl : List AppointmentRow) : List AppointmentRow × Option BookResult :=
  match doctorId, selectedTime, user with
  | some d, some t, some u =>
    match dbInsert (newAppointment u d dateIdx t notes newId now) tbl with
    | some tbl2 => (tbl2, some BookResult.success)
    | none => (tbl, some BookResult.failure)
  | _, _, _ => (tbl, none)

/-- Effect of `UPDATE appointments SET status = s WHERE id = target` on one
row; the `update_updated_at_column` trigger bumps `updated_at`. -/
def updateRow (target : Nat) (s : Status) (now : DateTime)
    (a : AppointmentRow) : AppointmentRow :=
  if a.id = target then { a with status := s, updated_at := now } else a

/-- The status-update mutation both dashboards issue:
`.from('appointments').update({ status }).eq('id', appointmentId)`. -/
def dbUpdateStatus (target : Nat) (s : Status) (now : DateTime)
    (tbl : List AppointmentRow) : List AppointmentRow :=
  tbl.map (updateRow target s now)

/-- `DoctorDashboard.updateAppointmentStatus` (status one of
confirmed/cancelled/completed at its call sites). -/
def updateAppointmentStatus (appointmentId : Nat) (s : Status) (now : DateTime)
    (tbl : List AppointmentRow) : List AppointmentRow :=
  dbUpdateStatus appointmentId s now tbl

/-- `PatientAppointments.cancelAppointment`:
`.update({ status: 'cancelled' }).eq('id', appointmentId)`. -/
def cancelAppointment (appointmentId : Nat) (now : DateTime)
    (tbl : List AppointmentRow) : List AppointmentRow :=
  dbUpdateStatus appointmentId Status.cancelled now tbl

/-- `isPast(parseISO(date + 'T' + time))` in `PatientAppointments`. -/
def isPastAppointment (now : DateTime) (a : AppointmentRow) : Bool :=
  DateTime.before ⟨a.appointment_date, a.appointment_time⟩ now

/-- Labels of the exposed mutating operations of the UI. -/
inductive UILabel where
  | book (userId doctorId dateIdx t : Nat) (notes : String) (newId : Nat)
  | docConfirm (appointmentId : Nat)
  | docCancel (appointmentId : Nat)
  | docComplete (appointmentId : Nat)
  | patCancel (userId appointmentId : Nat)
deriving DecidableEq

/-- One step of the UI, at current instant `now`.  The guards are the render
conditions of the source: the doctor dashboard offers Confirm/Cancel only on a
listed appointment with `status === 'pending'` and Mark Complete only on
`status === 'confirmed'` (its list is fetched with
`appointment_date >= today`; the `limit(10)` display cap is dropped, which
only enlarges the set of steps); the patient list offers Cancel only on the
patient's own appointment with `status === 'pending' && !isAppointmentPast`. -/
inductive UIStep : UILabel → DateTime → List AppointmentRow → List AppointmentRow → Prop where
  | book {u d dateIdx t : Nat} {notes : String} {newId : Nat} {now : DateTime}
      {tbl : List AppointmentRow} :
      UIStep (UILabel.book u d dateIdx t notes newId) now tbl
        (handleBookAppointment (some u) (some d) (some t) dateIdx notes newId now tbl).1
  | docConfirm {target : Nat} {now : DateTime} {tbl : List AppointmentRow}
      (a : AppointmentRow) (ha : a ∈ tbl) (hid : a.id = target)
      (hst : a.status = Status.pending) (hup : now.date ≤ a.appointment_date) :
      UIStep (UILabel.docConfirm target) now tbl
        (updateAppointmentStatus target Status.confirmed now tbl)
  | docCancel {target : Nat} {now : DateTime} {tbl : List AppointmentRow}
      (a : AppointmentRow) (ha : a ∈ tbl) (hid : a.id = target)
      (hst : a.status = Status.pending) (hup : now.date ≤ a.appointment_date) :
      UIStep (UILabel.docCancel target) now tbl
        (updateAppointmentStatus target Status.cancelled now tbl)
  | docComplete {target : Nat} {now : DateTime} {tbl : List AppointmentRow}
      (a : AppointmentRow) (ha : a ∈ tbl) (hid : a.id = target)
      (hst : a.status = Status.confirmed) (hup : now.date ≤ a.appointment_date) :
      UIStep (UILabel.docComplete target) now tbl
        (updateAppointmentStatus target Status.completed now tbl)
  | patCancel {u target : Nat} {now : DateTime} {tbl : List AppointmentRow}
      (a : AppointmentRow) (ha : a ∈ tbl) (hid : a.id = target)
      (hown : a.patient_id = u) (hst : a.status = Status.pending)
      (hnotpast : isPastAppointment now a = false) :
      UIStep (UILabel.patCancel u target) now tbl (cancelAppointment target now tbl)

/-- States of the `appointments` table reachable from the empty table through
the exposed UI operations. -/
inductive Reachable : List AppointmentRow → Prop where
  | empty : Reachable []
  | step {l : UILabel} {now : DateTime} {tbl tbl2 : List AppointmentRow} :
      Reachable tbl → UIStep l now tbl tbl2 → Reachable tbl2

/-- Two appointment rows occupy the same (doctor, date, time) slot. -/
def sameSlotTriple (a b : AppointmentRow) : Prop :=
  a.doctor_id = b.doctor_id ∧ a.appointment_date = b.appointment_date ∧
    a.appointment_time = b.appointment_time

/-- The `UNIQUE(doctor_id, appointment_date, appointment_time)` invariant:
no two rows of the table share a slot triple. -/
def UniqueSlots (tbl : List AppointmentRow) : Prop :=
  List.Pairwise (fun a b => ¬ sameSlotTriple a b) tbl

/-! ### Helper lemmas about the slot walk -/

theorem walkSlots_stop {cur endTime : Nat} (h : ¬ cur < endTime) :
    walkSlots cur endTime = [] := by
  rw [walkSlots]
  simp [h]

theorem walkSlots_go {cur endTime : Nat} (h : cur < endTime) :
    walkSlots cur endTime = cur :: walkSlots (cur + 30) endTime := by
  rw [walkSlots]
  simp [h]

theorem walkSlots_mem_aux (n : Nat) :
    ∀ cur endTime t : Nat, endTime - cur ≤ n →
      (t ∈ walkSlots cur endTime ↔ ((∃ k, t = cur + 30 * k) ∧ t < endTime)) := by
  induction n with
  | zero =>
    intro cur endTime t h
    have hle : ¬ cur < endTime := by omega
    rw [walkSlots_stop hle]
    simp only [List.not_mem_nil, false_iff]
    rintro ⟨⟨k, rfl⟩, hlt⟩
    omega
  | succ n ih =>
    intro cur endTime t h
    by_cases hlt : cur < endTime
    · rw [walkSlots_go hlt]
      have hrec := ih (cur + 30) endTime t (by omega)
      simp only [List.mem_cons, hrec]
      constructor
      · rintro (rfl | ⟨⟨k, rfl⟩, hk⟩)
        · exact ⟨⟨0, by omega⟩, hlt⟩
        · exact ⟨⟨k + 1, by ring⟩, hk⟩
      · rintro ⟨⟨k, rfl⟩, hk⟩
        cases k with
        | zero => left; omega
        | succ m => right; exact ⟨⟨m, by ring⟩, hk⟩
    · rw [walkSlots_stop hlt]
      simp only [List.not_mem_nil, false_iff]
      rintro ⟨⟨k, rfl⟩, hc⟩
      omega

theorem walkSlots_mem (cur endTime t : Nat) :
    t ∈ walkSlots cur endTime ↔ ((∃ k, t = cur + 30 * k) ∧ t < endTime) :=
  walkSlots_mem_aux (endTime - cur) cur endTime t (Nat.le_refl _)

theorem walkSlots_lower {cur endTime t : Nat} (h : t ∈ walkSlots cur endTime) :
    cur ≤ t := by
  obtain ⟨⟨k, rfl⟩, -⟩ := (walkSlots_mem cur endTime t).1 h
  omega

theorem walkSlots_chain_aux (n : Nat) :
    ∀ cur endTime : Nat, endTime - cur ≤ n →
      List.Chain' (· ≤ ·) (walkSlots cur endTime) := by
  induction n with
  | zero =>
    intro cur endTime h
    rw [walkSlots_stop (by omega)]
    exact List.chain'_nil
  | succ n ih =>
    intro cur endTime h
    by_cases hlt : cur < endTime
    · rw [walkSlots_go hlt]
      refine List.chain'_cons'.2 ⟨?_, ih (cur + 30) endTime (by omega)⟩
      intro y hy
      have := walkSlots_lower (List.mem_of_mem_head? hy)
      omega
    · rw [walkSlots_stop hlt]
      exact List.chain'_nil

theorem walkSlots_chain (cur endTime : Nat) :
    List.Chain' (· ≤ ·) (walkSlots cur endTime) :=
  walkSlots_chain_aux (endTime - cur) cur endTime (Nat.le_refl _)

/-! ### Helper lemmas about slot generation -/

theorem generateTimeSlots_times (doctorId dateIdx : Nat) (now : DateTime)
    (schedTbl : List ScheduleRow) (apptTbl : List AppointmentRow) :
    (generateTimeSlots doctorId dateIdx now schedTbl apptTbl).map TimeSlot.time =
      (schedulesFor doctorId (dateIdx % 7) schedTbl).flatMap
        (fun sc => walkSlots sc.start_time sc.end_time) := by
  unfold generateTimeSlots
  rw [List.map_flatMap]
  refine List.flatMap_congr ?_
  intro sc hsc
  rw [List.map_map]
  simp [Function.comp_def]

theorem mem_generateTimeSlots (doctorId dateIdx : Nat) (now : DateTime)
    (schedTbl : List ScheduleRow) (apptTbl : List AppointmentRow)
    (slot : TimeSlot) :
    slot ∈ generateTimeSlots doctorId dateIdx now schedTbl apptTbl ↔
      ∃ sc ∈ schedulesFor doctorId (dateIdx % 7) schedTbl,
        ∃ t ∈ walkSlots sc.start_time sc.end_time,
          slot = ⟨t, !(bookedTimes doctorId dateIdx apptTbl).contains t &&
            !((dateIdx == now.date) && DateTime.before ⟨dateIdx, t⟩ now)⟩ := by
  unfold generateTimeSlots
  simp only [List.mem_flatMap, List.mem_map]
  constructor
  · rintro ⟨sc, hsc, t, ht, rfl⟩
    exact ⟨sc, hsc, t, ht, rfl⟩
  · rintro ⟨sc, hsc, t, ht, rfl⟩
    exact ⟨sc, hsc, t, ht, rfl⟩

/-! ### Claim theorems about slot generation -/

/-- C3: for every schedule entry with start `s` and end `e`, the slot
generator emits candidate slots at `s, s + 30, s + 60, ...` exactly for the
times strictly below `e` (no slot at `e` itself); the generator's slot times
are exactly the walk over each fetched entry; for a 09:00-10:00 entry
(540-600 minutes) the emitted times are exactly 09:00 and 09:30. -/
theorem slot_walk_exact :
    (∀ s e t : Nat, t ∈ walkSlots s e ↔ ((∃ k, t = s + 30 * k) ∧ t < e)) ∧
    (∀ (doctorId dateIdx : Nat) (now : DateTime) (schedTbl : List ScheduleRow)
      (apptTbl : List AppointmentRow),
      (generateTimeSlots doctorId dateIdx now schedTbl apptTbl).map TimeSlot.time =
        (schedulesFor doctorId (dateIdx % 7) schedTbl).flatMap
          (fun sc => walkSlots sc.start_time sc.end_time)) ∧
    walkSlots 540 600 = [540, 570] := by
  refine ⟨walkSlots_mem, generateTimeSlots_times, ?_⟩
  simp [walkSlots_go, walkSlots_stop]

/-- C5: a doctor with no available schedule entry on the target date's
weekday yields the empty slot list, as the value of the total slot-generation
function (a normal outcome, not an error). -/
theorem no_schedule_empty_slots (doctorId dateIdx : Nat) (now : DateTime)
    (schedTbl : List ScheduleRow) (apptTbl : List AppointmentRow)
    (h : ∀ s ∈ schedTbl, ¬(s.doctor_id = doctorId ∧ s.day_of_week = dateIdx % 7 ∧
      s.is_available = true)) :
    generateTimeSlots doctorId dateIdx now schedTbl apptTbl = [] := by
  have hnil : schedulesFor doctorId (dateIdx % 7) schedTbl = [] := by
    rw [schedulesFor, List.filter_eq_nil_iff]
    intro s hs hcontra
    simp only [Bool.and_eq_true, beq_iff_eq] at hcontra
    exact h s hs ⟨hcontra.1.1, hcontra.1.2, hcontra.2⟩
  simp [generateTimeSlots, hnil]

/-- C5 witness: a concrete doctor whose only entry for the weekday is marked
unavailable produces the empty slot list. -/
theorem no_schedule_empty_slots_witness :
    generateTimeSlots 1 8 ⟨0, 0⟩ [⟨10, 1, 1, 540, 600, false⟩] [] = [] :=
  no_schedule_empty_slots 1 8 ⟨0, 0⟩ [⟨10, 1, 1, 540, 600, false⟩] [] (by decide)

/-- C6 counterexample: a doctor with two overlapping available entries for
the same weekday (09:00-11:00 and 09:30-10:00, distinct start times as the
schema's uniqueness key requires, already listed in ascending start order)
gets the slot sequence 540, 570, 600, 630, 570, which is not in ascending
time order. -/
theorem slots_not_ascending_counterexample :
    ¬ List.Chain' (· ≤ ·)
      ((generateTimeSlots 1 8 ⟨0, 0⟩
        [⟨10, 1, 1, 540, 660, true⟩, ⟨11, 1, 1, 570, 600, true⟩] []).map
        TimeSlot.time) := by
  have hev : (generateTimeSlots 1 8 ⟨0, 0⟩
      [⟨10, 1, 1, 540, 660, true⟩, ⟨11, 1, 1, 570, 600, true⟩] []).map
      TimeSlot.time = [540, 570, 600, 630, 570] := by
    simp [generateTimeSlots, schedulesFor, bookedTimes, walkSlots_go,
      walkSlots_stop, DateTime.before]
  rw [hev]
  simp [List.chain'_cons]

/-- C6 amended: the generator's slot times are the per-entry walks
concatenated in the order the schedule entries are fetched (no sorting and no
deduplication across entries), and within each single entry's walk the times
are in ascending order; the whole output need not be globally ascending when
entries overlap. -/
theorem slots_ascending_per_entry (doctorId dateIdx : Nat) (now : DateTime)
    (schedTbl : List ScheduleRow) (apptTbl : List AppointmentRow) :
    ((generateTimeSlots doctorId dateIdx now schedTbl apptTbl).map TimeSlot.time =
      (schedulesFor doctorId (dateIdx % 7) schedTbl).flatMap
        (fun sc => walkSlots sc.start_time sc.end_time)) ∧
    (∀ sc : ScheduleRow, List.Chain' (· ≤ ·)
      (walkSlots sc.start_time sc.end_time)) :=
  ⟨generateTimeSlots_times doctorId dateIdx now schedTbl apptTbl,
    fun sc => walkSlots_chain sc.start_time sc.end_time⟩

/-- C8: the patient-facing doctor directory returns exactly the doctors with
both `is_verified = true` and `is_available = true`. -/
theorem fetchDoctors_exactly_verified_available (tbl : List DoctorRow) :
    ∀ d : DoctorRow, d ∈ fetchDoctors tbl ↔
      (d ∈ tbl ∧ d.is_verified = true ∧ d.is_available = true) := by
  intro d
  simp [fetchDoctors, List.mem_filter]

/-- C1: a generated candidate slot is marked `available = false` exactly when
its time is among the doctor's pending/confirmed appointment times for the
target date, or the target date is the current day and the slot's time has
already passed; consequently no booked (pending/confirmed) time ever appears
with `available = true`. -/
theorem slot_available_iff (doctorId dateIdx : Nat) (now : DateTime)
    (schedTbl : List ScheduleRow) (apptTbl : List AppointmentRow) :
    (∀ slot ∈ generateTimeSlots doctorId dateIdx now schedTbl apptTbl,
      (slot.available = false ↔
        slot.time ∈ bookedTimes doctorId dateIdx apptTbl ∨
          (dateIdx = now.date ∧ slot.time < now.time))) ∧
    (∀ a ∈ apptTbl, a.doctor_id = doctorId → a.appointment_date = dateIdx →
      (a.status = Status.pending ∨ a.status = Status.confirmed) →
      ∀ slot ∈ generateTimeSlots doctorId dateIdx now schedTbl apptTbl,
        slot.time = a.appointment_time → slot.available = false) := by
  have hmain : ∀ slot ∈ generateTimeSlots doctorId dateIdx now schedTbl apptTbl,
      (slot.available = false ↔
        slot.time ∈ bookedTimes doctorId dateIdx apptTbl ∨
          (dateIdx = now.date ∧ slot.time < now.time)) := by
    intro slot hslot
    obtain ⟨sc, hsc, t, ht, rfl⟩ :=
      (mem_generateTimeSlots doctorId dateIdx now schedTbl apptTbl slot).1 hslot
    show (!(bookedTimes doctorId dateIdx apptTbl).contains t &&
      !((dateIdx == now.date) && DateTime.before ⟨dateIdx, t⟩ now)) = false ↔ _
    rcases hb : (bookedTimes doctorId dateIdx apptTbl).contains t with _ | _
    · have hnb : t ∉ bookedTimes doctorId dateIdx apptTbl := by
        intro hmem
        have hb2 : (bookedTimes doctorId dateIdx apptTbl).contains t = true :=
          List.elem_iff.2 hmem
        rw [hb] at hb2
        exact Bool.noConfusion hb2
      simp only [hb, DateTime.before, Bool.not_false, Bool.true_and,
        Bool.not_eq_false', Bool.and_eq_true, beq_iff_eq, Bool.or_eq_true,
        decide_eq_true_eq]
      constructor
      · rintro ⟨hd, hlt | ⟨-, hlt⟩⟩
        · omega
        · exact Or.inr ⟨hd, hlt⟩
      · rintro (hmem | ⟨hd, hlt⟩)
        · exact absurd hmem hnb
        · exact ⟨hd, Or.inr ⟨hd, hlt⟩⟩
    · have hmem : t ∈ bookedTimes doctorId dateIdx apptTbl :=
        List.elem_iff.1 hb
      simp only [hb, Bool.not_true, Bool.false_and, eq_self_iff_true, true_iff]
      exact Or.inl hmem
  refine ⟨hmain, ?_⟩
  intro a ha hdoc hdate hst slot hslot htime
  have hmem : slot.time ∈ bookedTimes doctorId dateIdx apptTbl := by
    rw [htime]
    refine List.mem_map.2 ⟨a, List.mem_filter.2 ⟨ha, ?_⟩, rfl⟩
    simp only [Bool.and_eq_true, beq_iff_eq, Bool.or_eq_true]
    rcases hst with h | h
    · exact ⟨⟨hdoc, hdate⟩, Or.inl (by rw [h])⟩
    · exact ⟨⟨hdoc, hdate⟩, Or.inr (by rw [h])⟩
  exact (hmain slot hslot).2 (Or.inl hmem)

/-- C1 witness: on a Monday-like date with a 09:00-10:00 entry and a
confirmed 09:30 booking (and a current moment on a different day), the
generated 09:30 slot is unavailable exactly because its time is booked. -/
theorem slot_available_iff_witness :
    ((⟨570, false⟩ : TimeSlot).available = false ↔
      (570 : Nat) ∈ bookedTimes 1 8
        [⟨20, 5, 1, 8, 570, Status.confirmed, none, none, none, ⟨0, 0⟩⟩] ∨
        ((8 : Nat) = 0 ∧ (570 : Nat) < 0)) :=
  (slot_available_iff 1 8 ⟨0, 0⟩ [⟨10, 1, 1, 540, 600, true⟩]
    [⟨20, 5, 1, 8, 570, Status.confirmed, none, none, none, ⟨0, 0⟩⟩]).1
    ⟨570, false⟩ (by
      have hev : generateTimeSlots 1 8 ⟨0, 0⟩ [⟨10, 1, 1, 540, 600, true⟩]
          [⟨20, 5, 1, 8, 570, Status.confirmed, none, none, none, ⟨0, 0⟩⟩] =
          [⟨540, true⟩, ⟨570, false⟩] := by
        simp [generateTimeSlots, schedulesFor, bookedTimes, walkSlots_go,
          walkSlots_stop, DateTime.before]
      rw [hev]
      decide)

/-! ### Helper lemmas about the appointment store operations -/

theorem tripleConflict_iff (row a : AppointmentRow) :
    tripleConflict row a = true ↔ sameSlotTriple a row := by
  simp [tripleConflict, sameSlotTriple, and_assoc]

theorem sameSlotTriple_updateRow (target : Nat) (s : Status) (now : DateTime)
    (a b : AppointmentRow) :
    sameSlotTriple (updateRow target s now a) (updateRow target s now b) ↔
      sameSlotTriple a b := by
  unfold updateRow
  split <;> split <;> exact Iff.rfl

theorem uniqueSlots_dbUpdateStatus (target : Nat) (s : Status) (now : DateTime)
    {tbl : List AppointmentRow} (h : UniqueSlots tbl) :
    UniqueSlots (dbUpdateStatus target s now tbl) := by
  unfold UniqueSlots dbUpdateStatus
  rw [List.pairwise_map]
  refine h.imp ?_
  intro a b hab hcontra
  exact hab ((sameSlotTriple_updateRow target s now a b).1 hcontra)

theorem uniqueSlots_dbInsert {row : AppointmentRow} {tbl tbl2 : List AppointmentRow}
    (h : UniqueSlots tbl) (hins : dbInsert row tbl = some tbl2) :
    UniqueSlots tbl2 := by
  unfold dbInsert at hins
  split at hins
  · exact Option.noConfusion hins
  · next hany =>
    cases hins
    unfold UniqueSlots
    rw [List.pairwise_append]
    refine ⟨h, List.pairwise_singleton _ _, ?_⟩
    intro a ha b hb
    rw [List.mem_singleton] at hb
    subst hb
    intro hsame
    exact hany (List.any_eq_true.2 ⟨a, ha, (tripleConflict_iff _ a).2 hsame⟩)

theorem uniqueSlots_handleBook (user doctorId selectedTime : Option Nat)
    (dateIdx : Nat) (notes : String) (newId : Nat) (now : DateTime)
    {tbl : List AppointmentRow} (h : UniqueSlots tbl) :
    UniqueSlots
      (handleBookAppointment user doctorId selectedTime dateIdx notes newId now tbl).1 := by
  rcases doctorId with _ | d
  · simpa [handleBookAppointment] using h
  rcases selectedTime with _ | t
  · simpa [handleBookAppointment] using h
  rcases user with _ | u
  · simpa [handleBookAppointment] using h
  cases hins : dbInsert (newAppointment u d dateIdx t notes newId now) tbl with
  | some tbl2 =>
    have h2 := uniqueSlots_dbInsert h hins
    simpa [handleBookAppointment, hins] using h2
  | none => simpa [handleBookAppointment, hins] using h

theorem subset_handleBook (user doctorId selectedTime : Option Nat)
    (dateIdx : Nat) (notes : String) (newId : Nat) (now : DateTime)
    (tbl : List AppointmentRow) :
    tbl ⊆ (handleBookAppointment user doctorId selectedTime dateIdx notes newId now tbl).1 := by
  rcases doctorId with _ | d
  · simp [handleBookAppointment]
  rcases selectedTime with _ | t
  · simp [handleBookAppointment]
  rcases user with _ | u
  · simp [handleBookAppointment]
  cases hc : tbl.any (tripleConflict (newAppointment u d dateIdx t notes newId now)) with
  | true => simp [handleBookAppointment, dbInsert, hc, List.Subset.refl]
  | false => simp [handleBookAppointment, dbInsert, hc, List.subset_append_left]

theorem mem_dbUpdateStatus_of_ne {tbl : List AppointmentRow} {a : AppointmentRow}
    {target : Nat} (s : Status) (now : DateTime) (ha : a ∈ tbl)
    (hne : a.id ≠ target) : a ∈ dbUpdateStatus target s now tbl := by
  refine List.mem_map.2 ⟨a, ha, ?_⟩
  unfold updateRow
  rw [if_neg hne]

theorem ids_ne_of_pairwise {tbl : List AppointmentRow}
    (hids : List.Pairwise (fun x y => x.id ≠ y.id) tbl) {a b : AppointmentRow}
    (ha : a ∈ tbl) (hb : b ∈ tbl) (hab : a ≠ b) : a.id ≠ b.id := by
  have hsymm : Symmetric (fun x y : AppointmentRow => x.id ≠ y.id) :=
    fun _ _ h he => h he.symm
  exact List.Pairwise.forall hsymm hids ha hb hab

/-! ### Claim theorems about the appointment store -/

/-- C2: in every state of the appointments store reachable through the
exposed operations (booking and the status updates), no two rows share a
(doctor_id, appointment_date, appointment_time) triple: creation is gated by
the storage layer's uniqueness constraint and status updates never touch the
triple. -/
theorem reachable_unique_slots {tbl : List AppointmentRow}
    (h : Reachable tbl) : UniqueSlots tbl := by
  induction h with
  | empty => exact List.Pairwise.nil
  | step hr hstep ih =>
    cases hstep with
    | book => exact uniqueSlots_handleBook _ _ _ _ _ _ _ ih
    | docConfirm a ha hid hst hup => exact uniqueSlots_dbUpdateStatus _ _ _ ih
    | docCancel a ha hid hst hup => exact uniqueSlots_dbUpdateStatus _ _ _ ih
    | docComplete a ha hid hst hup => exact uniqueSlots_dbUpdateStatus _ _ _ ih
    | patCancel a ha hid hown hst hnotpast => exact uniqueSlots_dbUpdateStatus _ _ _ ih

/-- C2 witness: the state after one concrete booking from the empty store
satisfies the uniqueness invariant. -/
theorem reachable_unique_slots_witness :
    UniqueSlots (handleBookAppointment (some 1) (some 2) (some 540) 7 "" 9 ⟨7, 0⟩ []).1 :=
  reachable_unique_slots (Reachable.step Reachable.empty UIStep.book)

/-- C4: no exposed operation changes a `cancelled` or `completed`
appointment: assuming the primary-key invariant (distinct rows have distinct
ids), any row in a terminal status is carried unchanged into the next state
by every UI step, because the patient cancel button requires status
`pending` and the doctor buttons require status `pending` (confirm/cancel)
or `confirmed` (complete). -/
theorem terminal_status_frozen {l : UILabel} {now : DateTime}
    {tbl tbl2 : List AppointmentRow}
    (hids : List.Pairwise (fun x y => x.id ≠ y.id) tbl)
    (hstep : UIStep l now tbl tbl2) {a : AppointmentRow} (ha : a ∈ tbl)
    (hterm : a.status = Status.cancelled ∨ a.status = Status.completed) :
    a ∈ tbl2 := by
  cases hstep with
  | book => exact subset_handleBook _ _ _ _ _ _ _ _ ha
  | docConfirm b hb hid hst hup =>
    refine mem_dbUpdateStatus_of_ne _ _ ha ?_
    rw [← hid]
    refine ids_ne_of_pairwise hids ha hb ?_
    intro he
    rw [he] at hterm
    rcases hterm with h | h <;> rw [hst] at h <;> exact Status.noConfusion h
  | docCancel b hb hid hst hup =>
    refine mem_dbUpdateStatus_of_ne _ _ ha ?_
    rw [← hid]
    refine ids_ne_of_pairwise hids ha hb ?_
    intro he
    rw [he] at hterm
    rcases hterm with h | h <;> rw [hst] at h <;> exact Status.noConfusion h
  | docComplete b hb hid hst hup =>
    refine mem_dbUpdateStatus_of_ne _ _ ha ?_
    rw [← hid]
    refine ids_ne_of_pairwise hids ha hb ?_
    intro he
    rw [he] at hterm
    rcases hterm with h | h <;> rw [hst] at h <;> exact Status.noConfusion h
  | patCancel b hb hid hown hst hnotpast =>
    refine mem_dbUpdateStatus_of_ne _ _ ha ?_
    rw [← hid]
    refine ids_ne_of_pairwise hids ha hb ?_
    intro he
    rw [he] at hterm
    rcases hterm with h | h <;> rw [hst] at h <;> exact Status.noConfusion h

/-- C4 witness: a concrete cancelled row survives a doctor-confirm step on a
different, pending row. -/
theorem terminal_status_frozen_witness :
    (⟨1, 50, 2, 3, 540, Status.cancelled, none, none, none, ⟨0, 0⟩⟩ : AppointmentRow) ∈
      updateAppointmentStatus 2 Status.confirmed ⟨3, 0⟩
        [⟨1, 50, 2, 3, 540, Status.cancelled, none, none, none, ⟨0, 0⟩⟩,
          ⟨2, 50, 2, 3, 570, Status.pending, none, none, none, ⟨0, 0⟩⟩] :=
  terminal_status_frozen (by decide)
    (UIStep.docConfirm ⟨2, 50, 2, 3, 570, Status.pending, none, none, none, ⟨0, 0⟩⟩
      (by decide) rfl rfl (by decide))
    (by decide) (Or.inl rfl)

/-- C7: booking with all guard inputs present attempts exactly one insert of
a row whose status is `pending`, whose patient is the caller and whose
doctor/date/time/note are the submitted values; if some existing row already
occupies the (doctor, date, time) slot the store is unchanged and the caller
sees the single generic failure, otherwise the new row is appended and the
caller sees success. -/
theorem booking_contract (u d t dateIdx : Nat) (notes : String) (newId : Nat)
    (now : DateTime) (tbl : List AppointmentRow) :
    ((∃ a ∈ tbl, sameSlotTriple a (newAppointment u d dateIdx t notes newId now)) →
      handleBookAppointment (some u) (some d) (some t) dateIdx notes newId now tbl =
        (tbl, some BookResult.failure)) ∧
    ((∀ a ∈ tbl, ¬ sameSlotTriple a (newAppointment u d dateIdx t notes newId now)) →
      handleBookAppointment (some u) (some d) (some t) dateIdx notes newId now tbl =
        (tbl ++ [newAppointment u d dateIdx t notes newId now],
          some BookResult.success)) ∧
    (newAppointment u d dateIdx t notes newId now).status = Status.pending ∧
    (newAppointment u d dateIdx t notes newId now).patient_id = u ∧
    (newAppointment u d dateIdx t notes newId now).doctor_id = d ∧
    (newAppointment u d dateIdx t notes newId now).appointment_date = dateIdx ∧
    (newAppointment u d dateIdx t notes newId now).appointment_time = t ∧
    (newAppointment u d dateIdx t notes newId now).patient_notes = some notes := by
  refine ⟨?_, ?_, rfl, rfl, rfl, rfl, rfl, rfl⟩
  · rintro ⟨a, ha, hsame⟩
    have hc : tbl.any (tripleConflict (newAppointment u d dateIdx t notes newId now)) = true :=
      List.any_eq_true.2 ⟨a, ha, (tripleConflict_iff _ a).2 hsame⟩
    simp [handleBookAppointment, dbInsert, hc]
  · intro h
    have hc : tbl.any (tripleConflict (newAppointment u d dateIdx t notes newId now)) = false :=
      List.any_eq_false.2 fun a ha hconf =>
        h a ha ((tripleConflict_iff _ a).1 hconf)
    simp [handleBookAppointment, dbInsert, hc]

/-- C7 witness: booking into the empty store succeeds with exactly the new
pending row. -/
theorem booking_contract_witness :
    handleBookAppointment (some 1) (some 2) (some 540) 7 "note" 9 ⟨7, 0⟩ [] =
      ([newAppointment 1 2 7 540 "note" 9 ⟨7, 0⟩], some BookResult.success) :=
  (booking_contract 1 2 540 7 "note" 9 ⟨7, 0⟩ []).2.1 (by simp)

/-- C9: a status-update operation preserves the number of rows, leaves every
row whose id differs from the target completely unchanged, and gives every
result row the same identity, parties, date, time and notes fields as its
source row, with only status and the storage layer's `updated_at` changed on
the targeted id; the patient cancel is the same mutation with status
`cancelled`. -/
theorem update_status_frame (target : Nat) (s : Status) (now : DateTime)
    (tbl : List AppointmentRow) :
    (updateAppointmentStatus target s now tbl).length = tbl.length ∧
    cancelAppointment target now tbl =
      updateAppointmentStatus target Status.cancelled now tbl ∧
    (∀ a ∈ tbl, a.id ≠ target → a ∈ updateAppointmentStatus target s now tbl) ∧
    (∀ b ∈ updateAppointmentStatus target s now tbl, ∃ a ∈ tbl,
      b.id = a.id ∧ b.patient_id = a.patient_id ∧ b.doctor_id = a.doctor_id ∧
      b.appointment_date = a.appointment_date ∧
      b.appointment_time = a.appointment_time ∧ b.notes = a.notes ∧
      b.patient_notes = a.patient_notes ∧ b.doctor_notes = a.doctor_notes ∧
      (a.id = target → b.status = s ∧ b.updated_at = now) ∧
      (a.id ≠ target → b = a)) := by
  refine ⟨List.length_map tbl _, rfl, ?_, ?_⟩
  · intro a ha hne
    exact mem_dbUpdateStatus_of_ne s now ha hne
  · intro b hb
    obtain ⟨a, ha, rfl⟩ := List.mem_map.1 hb
    refine ⟨a, ha, ?_⟩
    unfold updateRow
    by_cases hid : a.id = target
    · rw [if_pos hid]
      exact ⟨rfl, rfl, rfl, rfl, rfl, rfl, rfl, rfl, fun _ => ⟨rfl, rfl⟩,
        fun hcon => absurd hid hcon⟩
    · rw [if_neg hid]
      exact ⟨rfl, rfl, rfl, rfl, rfl, rfl, rfl, rfl, fun hcon => absurd hcon hid,
        fun _ => rfl⟩

/-- C9 witness: a row whose id differs from the target is still present,
unchanged, after a concrete status update. -/
theorem update_status_frame_witness :
    (⟨1, 50, 2, 3, 540, Status.pending, none, none, none, ⟨0, 0⟩⟩ : AppointmentRow) ∈
      updateAppointmentStatus 7 Status.confirmed ⟨3, 0⟩
        [⟨1, 50, 2, 3, 540, Status.pending, none, none, none, ⟨0, 0⟩⟩] :=
  (update_status_frame 7 Status.confirmed ⟨3, 0⟩
    [⟨1, 50, 2, 3, 540, Status.pending, none, none, none, ⟨0, 0⟩⟩]).2.2.1
    ⟨1, 50, 2, 3, 540, Status.pending, none, none, none, ⟨0, 0⟩⟩
    (by decide) (by decide)

/-- C10: a patient-cancel step can only target a pending appointment whose
(date, time) moment has not yet passed, and (assuming the primary-key
invariant) it leaves every appointment whose moment is already past
unchanged: the patient interface never cancels a past appointment. -/
theorem patient_cancel_never_past {u target : Nat} {now : DateTime}
    {tbl tbl2 : List AppointmentRow}
    (hids : List.Pairwise (fun x y => x.id ≠ y.id) tbl)
    (hstep : UIStep (UILabel.patCancel u target) now tbl tbl2) :
    (∃ b ∈ tbl, b.id = target ∧ b.status = Status.pending ∧
      isPastAppointment now b = false) ∧
    ∀ a ∈ tbl, isPastAppointment now a = true → a ∈ tbl2 := by
  cases hstep with
  | patCancel b hb hid hown hst hnotpast =>
    refine ⟨⟨b, hb, hid, hst, hnotpast⟩, ?_⟩
    intro a ha hpast
    refine mem_dbUpdateStatus_of_ne _ _ ha ?_
    rw [← hid]
    refine ids_ne_of_pairwise hids ha hb ?_
    intro he
    rw [he, hnotpast] at hpast
    exact Bool.noConfusion hpast

/-- C10 witness: a patient-cancel step on a future pending appointment
leaves a past pending appointment untouched. -/
theorem patient_cancel_never_past_witness :
    (⟨1, 50, 2, 0, 540, Status.pending, none, none, none, ⟨0, 0⟩⟩ : AppointmentRow) ∈
      cancelAppointment 2 ⟨5, 0⟩
        [⟨1, 50, 2, 0, 540, Status.pending, none, none, none, ⟨0, 0⟩⟩,
          ⟨2, 50, 2, 9, 540, Status.pending, none, none, none, ⟨0, 0⟩⟩] :=
  (patient_cancel_never_past (by decide)
    (UIStep.patCancel ⟨2, 50, 2, 9, 540, Status.pending, none, none, none, ⟨0, 0⟩⟩
      (by decide) rfl rfl rfl (by decide))).2
    ⟨1, 50, 2, 0, 540, Status.pending, none, none, none, ⟨0, 0⟩⟩
    (by decide) (by decide)

end Booking
